import Mathlib

/-!
A verification development for the frame-aligned annotation encoding engine of
the `pumpp` repository (`pumpp/task/base.py`, `pumpp/task/event.py`,
`pumpp/feature/fft.py`).

Numbers that the Python code holds as floats (times in seconds, sampling
rates, label values) are modelled exactly as rationals `ℚ`; numpy integers as
`ℤ`/`ℕ`; numpy 2-d arrays as `List (List α)` (rows = frames).  IEEE NaN for
floating and complex dtypes is modelled by `Option`: `none` is NaN, and
addition propagates `none` exactly as IEEE addition propagates NaN.
Fallible numpy operations (out-of-bounds integer indexing, negative array
sizes, missing dict keys) are modelled with `Except String`.
-/

/-- Truncation of a rational toward zero: the effect of numpy's
`.astype(int)` on a real value (C-style cast). -/
def ratTrunc (q : ℚ) : ℤ :=
  q.num.tdiv q.den

/-- The `sr` and `hop_length` attributes shared by every transformer
(`BaseTaskTransformer.__init__` stores both). -/
structure TaskParams where
  sr : ℚ
  hop_length : ℕ
deriving DecidableEq

/-- `librosa.time_to_samples(t, sr) = (t * sr).astype(int)`: truncation toward
zero of `t * sr`.  It is computed on the raw fraction
`(t.num * sr.num) / (t.den * sr.den)`, which represents the same rational as
`t * sr`, and truncation toward zero is invariant under scaling numerator and
denominator by the same positive factor, so this equals `ratTrunc (t * sr)`;
on the nonnegative times and rates the library is used with, it equals
`Int.floor (t * sr)` (proved below as `time_to_samples_eq_floor`). -/
def time_to_samples (sr t : ℚ) : ℤ :=
  (t.num * sr.num).tdiv (t.den * sr.den)

/-- `librosa.samples_to_frames(s, hop_length) = floor(s / hop_length)`
(floor division). -/
def samples_to_frames (hop_length : ℕ) (s : ℤ) : ℤ :=
  Int.fdiv s hop_length

/-- `librosa.time_to_frames(t, sr, hop_length)`: the canonical time-to-frame
function used by `encode_events`, `encode_intervals` and `transform`. -/
def time_to_frames (p : TaskParams) (t : ℚ) : ℤ :=
  samples_to_frames p.hop_length (time_to_samples p.sr t)

/-- NaN-propagating addition on an `Option`-carrier: IEEE addition returns
NaN (`none`) whenever either operand is NaN. -/
def optAdd (f : β → β → β) : Option β → Option β → Option β
  | none, _ => none
  | _, none => none
  | some a, some b => some (f a b)

/-- The semantics of one numpy dtype as used by `encode_events` /
`encode_intervals`: the result of `fill_value(dtype)` (from
`pumpp/task/base.py`), the dtype's `+=` accumulation, and the effect of
`values.astype(dtype)` on a real value. -/
structure DtypeModel (α : Type) where
  fill : α
  add : α → α → α
  ofRat : ℚ → α

/-- `np.bool`: `fill_value` is `0` i.e. `False`; `+=` on numpy booleans is
logical or; `astype(bool)` maps a value to `True` exactly when nonzero. -/
def boolDtype : DtypeModel Bool :=
  { fill := false, add := fun a b => a || b, ofRat := fun q => decide (q ≠ 0) }

/-- An integer dtype: `fill_value` is `0`; `+=` is integer addition;
`astype(int)` truncates toward zero. -/
def intDtype : DtypeModel ℤ :=
  { fill := 0, add := fun a b => a + b, ofRat := ratTrunc }

/-- A floating dtype: `fill_value` is NaN (`none`); `+=` is IEEE addition,
which propagates NaN; `astype(float)` embeds the value. -/
def floatDtype : DtypeModel (Option ℚ) :=
  { fill := none, add := optAdd (fun a b => a + b), ofRat := some }

/-- A complex dtype: `fill_value` is `complex(nan)` (`none`); `+=` is complex
addition propagating NaN; `astype(complex)` embeds the value with zero
imaginary part. -/
def complexDtype : DtypeModel (Option (ℚ × ℚ)) :=
  { fill := none
    add := optAdd (fun a b => (a.1 + b.1, a.2 + b.2))
    ofRat := fun q => some (q, 0) }

/-- numpy basic integer indexing into axis 0 of length `n`: a negative index
`e` with `-n ≤ e` wraps to `n + e`; an index outside `[-n, n)` is an
`IndexError` (`none`). -/
def npIndex (n : ℕ) (e : ℤ) : Option ℕ :=
  if 0 ≤ e ∧ e < (n : ℤ) then some e.toNat
  else if -(n : ℤ) ≤ e ∧ e < 0 then some (e + n).toNat
  else none

/-- Python slice endpoint normalization for a list of length `n`: a negative
endpoint is shifted by `n`, then the result is clamped into `[0, n]`.
Out-of-range endpoints never raise. -/
def sliceIdx (n : ℕ) (i : ℤ) : ℕ :=
  min (if i < 0 then i + n else i).toNat n

/-- Row-indexed map, used to model in-place updates of a frame-indexed
buffer; `s` is the index of the first row. -/
def mapWithIdx (f : ℕ → α → α) : ℕ → List α → List α
  | _, [] => []
  | s, x :: xs => f s x :: mapWithIdx f (s + 1) xs

/-- The loop of `encode_events`: `for column, event in zip(values, frames):
target[event] += column`.  numpy integer indexing raises `IndexError` when
the frame index is out of range; `+=` on a row is element-wise `add`. -/
def writeEvents (add : α → α → α) :
    List (List α) → List (List α × ℤ) → Except String (List (List α))
  | target, [] => .ok target
  | target, (column, event) :: rest =>
    match npIndex target.length event with
    | none => .error "IndexError"
    | some i =>
      writeEvents add (target.set i (List.zipWith add (target.getD i []) column)) rest

/-- `BaseTaskTransformer.encode_events(duration, events, values, dtype)`:
frame indices of the events, an `n_total × m` buffer filled with
`fill_value(dtype)`, `values.astype(dtype)`, then accumulation.  `m` is
`values.shape[1]` (constant across the rows of the numpy array `values`);
`np.empty` raises `ValueError` on a negative dimension. -/
def encode_events (p : TaskParams) (D : DtypeModel α) (duration : ℚ)
    (events : List ℚ) (values : List (List ℚ)) (m : ℕ) :
    Except String (List (List α)) :=
  let frames := events.map (time_to_frames p)
  let nF := time_to_frames p duration
  if nF < 0 then .error "ValueError"
  else
    let target := List.replicate nF.toNat (List.replicate m D.fill)
    let vals := values.map (List.map D.ofRat)
    writeEvents D.add target (vals.zip frames)

/-- One step of the `encode_intervals` loop:
`target[interval[0]:interval[1]] += column` adds `column` onto every row
whose index lies in the normalized slice `[lo, hi)`. -/
def addInterval (add : α → α → α) (lo hi : ℕ) (column : List α)
    (target : List (List α)) : List (List α) :=
  mapWithIdx (fun j row => if lo ≤ j ∧ j < hi then List.zipWith add row column else row)
    0 target

/-- The loop of `encode_intervals`: slice endpoints are normalized against
the buffer length (silently clipped, never an error). -/
def writeIntervals (add : α → α → α) :
    List (List α) → List (List α × (ℤ × ℤ)) → List (List α)
  | target, [] => target
  | target, (column, f) :: rest =>
    writeIntervals add
      (addInterval add (sliceIdx target.length f.1) (sliceIdx target.length f.2)
        column target) rest

/-- `BaseTaskTransformer.encode_intervals(duration, intervals, values, dtype)`:
each interval's endpoints are mapped to frames, the buffer is filled with
`fill_value(dtype)`, and each value row is added over its half-open frame
slice. -/
def encode_intervals (p : TaskParams) (D : DtypeModel α) (duration : ℚ)
    (intervals : List (ℚ × ℚ)) (values : List (List ℚ)) (m : ℕ) :
    Except String (List (List α)) :=
  let frames := intervals.map fun iv => (time_to_frames p iv.1, time_to_frames p iv.2)
  let nF := time_to_frames p duration
  if nF < 0 then .error "ValueError"
  else
    let vals := values.map (List.map D.ofRat)
    let target := List.replicate nF.toNat (List.replicate m D.fill)
    .ok (writeIntervals D.add target (vals.zip frames))

/-- Every entry of every row is NaN (`none`). -/
def allNaN (t : List (List (Option β))) : Bool :=
  t.all fun row => row.all fun x => x.isNone

/-- One observation of a `jams` annotation's data, as produced by
`ann.data.to_interval_values()`: onset time, duration, and value. -/
structure Observation where
  time : ℚ
  duration : ℚ
  value : ℚ
deriving DecidableEq

/-- The dictionary returned by `BeatTransformer.transform_annotation`. -/
structure BeatRecord where
  beat : List (List Bool)
  downbeat : List (List Bool)
  mask_downbeat : Bool
deriving DecidableEq

/-- `BeatTransformer.transform_annotation(ann, duration)` from
`pumpp/task/event.py`: every onset is a beat event with label `1`; onsets
whose annotation value equals `1` are downbeat events; `mask_downbeat` is set
exactly when some value equals `1`; both event sets are encoded with the
default dtype `np.bool` and `m = 1` (labels are `np.ones((n, 1))`, and the
empty downbeat case uses `np.zeros(0)` events with `np.zeros((0, 1))`
labels). -/
def transform_annotation_beat (p : TaskParams) (data : List Observation)
    (duration : ℚ) : Except String BeatRecord :=
  let beat_events := data.map (·.time)
  let vals := data.map (·.value)
  let beat_labels : List (List ℚ) := beat_events.map fun _ => [1]
  let anyDown := vals.any fun v => decide (v = 1)
  let downbeat_events :=
    if anyDown then (data.filter fun o => decide (o.value = 1)).map (·.time) else []
  let downbeat_labels : List (List ℚ) := downbeat_events.map fun _ => [1]
  match encode_events p boolDtype duration beat_events beat_labels 1 with
  | .error e => .error e
  | .ok target_beat =>
    match encode_events p boolDtype duration downbeat_events downbeat_labels 1 with
    | .error e => .error e
    | .ok target_downbeat =>
      .ok { beat := target_beat, downbeat := target_downbeat, mask_downbeat := anyDown }

/-- A `jams.Annotation` restricted to what the beat task reads: the optional
`time` and `duration` header fields and the observation list. -/
structure BeatAnn where
  time : Option ℚ
  duration : Option ℚ
  data : List Observation
deriving DecidableEq

/-- `BaseTaskTransformer.empty(duration)`: builds
`jams.Annotation(namespace=self.namespace, time=0, duration=0)`.  The
`duration` argument is accepted but not used by the body. -/
def beat_empty (duration : ℚ) : BeatAnn :=
  { time := some 0, duration := some 0, data := [] }

/-- The `_valid` pair computed by `BaseTaskTransformer.transform` for one
annotation: `[0, duration]` when `time` or `duration` is `None`, else
`[time, time + duration]`, both converted with `time_to_frames`. -/
def validFrames (p : TaskParams) (a : BeatAnn) (duration : ℚ) : ℤ × ℤ :=
  match a.time, a.duration with
  | some t, some d => (time_to_frames p t, time_to_frames p (t + d))
  | _, _ => (time_to_frames p 0, time_to_frames p duration)

/-- The merged output record of the beat producer: the field arrays, the
`mask_downbeat` flag and the `_valid` frame range. -/
structure BeatOutput where
  beat : List (List Bool)
  downbeat : List (List Bool)
  mask_downbeat : Bool
  valid : ℤ × ℤ
deriving DecidableEq

/-- Modelled from the spec: the combination rule of `Scope.merge`
(`pumpp/base.py` is not under `src/`): when several surviving annotations
produce records for the same namespace, their field arrays are combined with
the same element-wise addition as overlapping intervals (logical or for the
`np.bool` fields of the beat task), and the validity windows by union span
(minimum start, maximum end). -/
def combineRecords (r1 r2 : BeatRecord × (ℤ × ℤ)) : BeatRecord × (ℤ × ℤ) :=
  ({ beat := List.zipWith (List.zipWith fun a b => a || b) r1.1.beat r2.1.beat
     downbeat := List.zipWith (List.zipWith fun a b => a || b) r1.1.downbeat r2.1.downbeat
     mask_downbeat := r1.1.mask_downbeat || r2.1.mask_downbeat },
   (min r1.2.1 r2.2.1, max r1.2.2 r2.2.2))

/-- Modelled from the spec: `Scope.merge` (`pumpp/base.py` is not under
`src/`) collapses the per-annotation records into one output record; the
producer-name key prefixing only renames keys and is not modelled. -/
def merge_beat : List (BeatRecord × (ℤ × ℤ)) → Option BeatOutput
  | [] => none
  | r :: rest =>
    let c := rest.foldl combineRecords r
    some { beat := c.1.beat, downbeat := c.1.downbeat
           mask_downbeat := c.1.mask_downbeat, valid := c.2 }

/-- The per-annotation loop of `BaseTaskTransformer.transform`: apply
`transform_annotation` and attach the `_valid` frame range.  An exception in
`transform_annotation` aborts the whole call. -/
def mapResults (p : TaskParams) (duration : ℚ) :
    List BeatAnn → Except String (List (BeatRecord × (ℤ × ℤ)))
  | [] => .ok []
  | a :: rest =>
    match transform_annotation_beat p a.data duration with
    | .error e => .error e
    | .ok r =>
      match mapResults p duration rest with
      | .error e => .error e
      | .ok rs => .ok ((r, validFrames p a duration) :: rs)

/-- `BaseTaskTransformer.transform(jam)` specialized to the beat task.  Each
candidate annotation is represented by the outcome of
`jams.nsconvert.convert(ann, self.namespace)`: `some a` when conversion
succeeds with result `a`, `none` when it raises `jams.NamespaceError` (which
the `try/except` silently discards).  If no candidate survives, the single
annotation `empty(duration)` is used instead.  Results are merged by
`merge_beat`. -/
def transform_beat (p : TaskParams) (cands : List (Option BeatAnn))
    (duration : ℚ) : Except String BeatOutput :=
  let anns0 := cands.filterMap id
  let anns := if anns0.isEmpty then [beat_empty duration] else anns0
  match mapResults p duration anns with
  | .error e => .error e
  | .ok results =>
    match merge_beat results with
    | none => .error "merge"
    | some out => .ok out

/-- The dtype names that appear in the registrations of `pumpp/feature/fft.py`. -/
inductive NPDtypeName
  | float32
deriving DecidableEq

/-- A field descriptor of the Field Schema: shape template (with `none` as
the dynamic time dimension) and dtype. -/
structure FieldDesc where
  shape : List (Option ℕ)
  dtype : NPDtypeName
deriving DecidableEq

/-- Modelled from the spec: `Scope.register(name, shape, dtype)`
(`pumpp/base.py` is not under `src/`) adds a field and fails on a duplicate
name. -/
def registerField (fs : List (String × FieldDesc)) (k : String) (f : FieldDesc) :
    Option (List (String × FieldDesc)) :=
  if (fs.lookup k).isSome then none else some (fs ++ [(k, f)])

/-- Modelled from the spec: `Scope.pop(name)` (`pumpp/base.py` is not under
`src/`) removes a field and returns its descriptor, failing when absent. -/
def popField (fs : List (String × FieldDesc)) (k : String) :
    Option (FieldDesc × List (String × FieldDesc)) :=
  match fs.lookup k with
  | none => none
  | some f => some (f, fs.filter fun kv => !(kv.1 == k))

/-- The registrations performed by `STFT.__init__`:
`register('mag', [None, 1 + n_fft // 2], np.float32)` then the same for
`'phase'`. -/
def stft_fields (n_fft : ℕ) : Option (List (String × FieldDesc)) :=
  match registerField [] "mag" { shape := [none, some (1 + n_fft / 2)], dtype := .float32 } with
  | none => none
  | some f1 => registerField f1 "phase" { shape := [none, some (1 + n_fft / 2)], dtype := .float32 }

/-- The registrations performed by `STFTPhaseDiff.__init__`: the parent's
fields, then `phase_field = self.pop('phase')` and
`register('dphase', phase_field.shape, phase_field.dtype)`. -/
def stftPhaseDiff_fields (n_fft : ℕ) : Option (List (String × FieldDesc)) :=
  match stft_fields n_fft with
  | none => none
  | some fs =>
    match popField fs "phase" with
    | none => none
    | some (pf, fs') => registerField fs' "dphase" { shape := pf.shape, dtype := pf.dtype }

/-- The registrations performed by `STFTMag.__init__`: the parent's fields
with `'phase'` popped. -/
def stftMag_fields (n_fft : ℕ) : Option (List (String × FieldDesc)) :=
  match stft_fields n_fft with
  | none => none
  | some fs =>
    match popField fs "phase" with
    | none => none
    | some (_, fs') => some fs'

/-- A frame-major spectral matrix (the external DSP output after transposing). -/
abbrev Mat : Type := List (List ℚ)

/-- `STFT.transform_audio(y)` returns `{'mag': ..., 'phase': ...}`; the two
matrices are the outputs of the external `librosa` computation on `y` and are
taken as parameters. -/
def stft_transform_audio (mag phase : Mat) : List (String × Mat) :=
  [("mag", mag), ("phase", phase)]

/-- Python `dict.pop(k)`: removes and returns the entry, `KeyError` when the
key is absent.  Insertion order of the remaining entries is kept. -/
def dictPop (d : List (String × Mat)) (k : String) :
    Except String (Mat × List (String × Mat)) :=
  match d.lookup k with
  | none => .error "KeyError"
  | some v => .ok (v, d.filter fun kv => !(kv.1 == k))

/-- `STFTPhaseDiff.transform_audio(y)`:
`data = super().transform_audio(y); data['dphase'] = phase_diff(data.pop('phase'), axis=0)`.
`phase_diff` lives in `pumpp/feature/base.py`, which is not under `src/`; the
claims do not constrain its values, so it is a parameter `pd`. -/
def stftPhaseDiff_transform_audio (pd : Mat → Mat) (mag phase : Mat) :
    Except String (List (String × Mat)) :=
  match dictPop (stft_transform_audio mag phase) "phase" with
  | .error e => .error e
  | .ok (pv, d) => .ok (d ++ [("dphase", pd pv)])

/-- `STFTMag.transform_audio(y)`:
`data = super().transform_audio(y); data.pop('phase'); return data`. -/
def stftMag_transform_audio (mag phase : Mat) :
    Except String (List (String × Mat)) :=
  match dictPop (stft_transform_audio mag phase) "phase" with
  | .error e => .error e
  | .ok (_, d) => .ok d

/-! ### Helper lemmas -/

theorem time_to_samples_eq_floor (sr t : ℚ) (hsr : 0 ≤ sr) (ht : 0 ≤ t) :
    time_to_samples sr t = ⌊t * sr⌋ := by
  have hnz : t.den * sr.den ≠ 0 := Nat.mul_ne_zero t.den_nz sr.den_nz
  obtain ⟨d, hd0, hnum, hden⟩ :=
    Rat.normalize_num_den' (t.num * sr.num) (t.den * sr.den) hnz
  have hmul : t * sr = Rat.normalize (t.num * sr.num) (t.den * sr.den) hnz :=
    Rat.mul_def t sr
  rw [← hmul] at hnum hden
  have htnum : 0 ≤ t.num := Rat.num_nonneg.2 ht
  have hsrnum : 0 ≤ sr.num := Rat.num_nonneg.2 hsr
  have hdpos : (0 : ℤ) < (d : ℤ) := Int.ofNat_pos.2 (Nat.pos_of_ne_zero hd0)
  rw [Rat.floor_def]
  show (t.num * sr.num).tdiv ((t.den : ℤ) * (sr.den : ℤ)) = (t * sr).num / ((t * sr).den : ℤ)
  rw [Int.tdiv_eq_ediv (Int.mul_nonneg htnum hsrnum)
    (Int.mul_nonneg (Int.ofNat_nonneg _) (Int.ofNat_nonneg _))]
  rw [← Nat.cast_mul, hnum, hden, Nat.cast_mul]
  exact Int.mul_ediv_mul_of_pos_left _ _ hdpos

theorem time_to_frames_zero (p : TaskParams) : time_to_frames p 0 = 0 := by
  simp [time_to_frames, time_to_samples, samples_to_frames]

theorem length_mapWithIdx (f : ℕ → α → α) : ∀ (s : ℕ) (l : List α),
    (mapWithIdx f s l).length = l.length
  | _, [] => rfl
  | s, _ :: xs => by simp [mapWithIdx, length_mapWithIdx f (s + 1) xs]

theorem getElem?_mapWithIdx (f : ℕ → α → α) : ∀ (s : ℕ) (l : List α) (j : ℕ),
    (mapWithIdx f s l)[j]? = (l[j]?).map (f (s + j))
  | _, [], _ => by simp [mapWithIdx]
  | s, x :: xs, 0 => by simp [mapWithIdx]
  | s, x :: xs, j + 1 => by
    have hidx : s + 1 + j = s + (j + 1) := by omega
    simp only [mapWithIdx, List.getElem?_cons_succ]
    rw [getElem?_mapWithIdx f (s + 1) xs j, hidx]

theorem length_writeIntervals (add : α → α → α) : ∀ (ps : List (List α × (ℤ × ℤ)))
    (t : List (List α)), (writeIntervals add t ps).length = t.length
  | [], _ => rfl
  | pr :: rest, t => by
    simp [writeIntervals, length_writeIntervals add rest, addInterval, length_mapWithIdx]

theorem writeEvents_ok_length (add : α → α → α) : ∀ (ps : List (List α × ℤ))
    (t t' : List (List α)), writeEvents add t ps = .ok t' → t'.length = t.length
  | [], t, t', h => by
    simp only [writeEvents] at h
    cases h
    rfl
  | (column, event) :: rest, t, t', h => by
    simp only [writeEvents] at h
    cases hi : npIndex t.length event with
    | none => rw [hi] at h; cases h
    | some i =>
      rw [hi] at h
      have := writeEvents_ok_length add rest _ t' h
      simpa using this

theorem writeEvents_unobserved (add : α → α → α) : ∀ (ps : List (List α × ℤ))
    (t t' : List (List α)) (j : ℕ), writeEvents add t ps = .ok t' →
    (∀ pr ∈ ps, npIndex t.length pr.2 ≠ some j) → t'[j]? = t[j]?
  | [], t, t', j, h, _ => by
    simp only [writeEvents] at h
    cases h
    rfl
  | (column, event) :: rest, t, t', j, h, hj => by
    simp only [writeEvents] at h
    cases hi : npIndex t.length event with
    | none => rw [hi] at h; cases h
    | some i =>
      rw [hi] at h
      have hij : i ≠ j := by
        intro hcontra
        exact hj (column, event) (List.mem_cons_self _ _) (hcontra ▸ hi)
      have hrest : ∀ pr ∈ rest,
          npIndex (t.set i (List.zipWith add (t.getD i []) column)).length pr.2 ≠ some j := by
        intro pr hpr
        rw [List.length_set]
        exact hj pr (List.mem_cons_of_mem _ hpr)
      rw [writeEvents_unobserved add rest _ t' j h hrest]
      exact List.getElem?_set_ne hij

theorem writeEvents_oob_error (add : α → α → α) : ∀ (ps : List (List α × ℤ))
    (t : List (List α)), (∃ pr ∈ ps, npIndex t.length pr.2 = none) →
    writeEvents add t ps = .error "IndexError"
  | [], t, h => by
    obtain ⟨pr, hpr, _⟩ := h
    cases hpr
  | (column, event) :: rest, t, h => by
    simp only [writeEvents]
    cases hi : npIndex t.length event with
    | none => rfl
    | some i =>
      obtain ⟨pr, hpr, hnone⟩ := h
      rcases List.mem_cons.1 hpr with rfl | hmem
      · rw [hi] at hnone; cases hnone
      · exact writeEvents_oob_error add rest _ ⟨pr, hmem, by simpa using hnone⟩

theorem writeIntervals_unobserved (add : α → α → α) : ∀ (ps : List (List α × (ℤ × ℤ)))
    (t : List (List α)) (j : ℕ),
    (∀ pr ∈ ps, ¬(sliceIdx t.length pr.2.1 ≤ j ∧ j < sliceIdx t.length pr.2.2)) →
    (writeIntervals add t ps)[j]? = t[j]?
  | [], _, _, _ => rfl
  | (column, f) :: rest, t, j, hj => by
    have hcond := hj (column, f) (List.mem_cons_self _ _)
    simp only [writeIntervals]
    set t1 := addInterval add (sliceIdx t.length f.1) (sliceIdx t.length f.2) column t with ht1
    have hlen : t1.length = t.length := by simp [ht1, addInterval, length_mapWithIdx]
    have hrest : ∀ pr ∈ rest,
        ¬(sliceIdx t1.length pr.2.1 ≤ j ∧ j < sliceIdx t1.length pr.2.2) := by
      intro pr hpr
      rw [hlen]
      exact hj pr (List.mem_cons_of_mem _ hpr)
    rw [writeIntervals_unobserved add rest t1 j hrest, ht1, addInterval, getElem?_mapWithIdx]
    simp [hcond]

theorem all_isNone_zipWith (f : β → β → β) : ∀ (row col : List (Option β)),
    row.all Option.isNone = true → (List.zipWith (optAdd f) row col).all Option.isNone = true
  | [], _, _ => rfl
  | _ :: _, [], _ => rfl
  | a :: row, c :: col, h => by
    simp only [List.all_cons, Bool.and_eq_true] at h
    have ha : a = none := Option.isNone_iff_eq_none.1 h.1
    subst ha
    simpa [optAdd] using all_isNone_zipWith f row col h.2

theorem all_getD (P : List (Option β) → Bool) (t : List (List (Option β))) (i : ℕ)
    (h : t.all P = true) (hnil : P [] = true) : P (t.getD i []) = true := by
  by_cases hi : i < t.length
  · rw [List.getD_eq_getElem t [] hi]
    exact List.all_eq_true.1 h _ (t.getElem_mem hi)
  · rw [List.getD_eq_default t [] (Nat.le_of_not_lt hi)]
    exact hnil

theorem all_set (P : α → Bool) : ∀ (l : List α) (i : ℕ) (a : α),
    l.all P = true → P a = true → (l.set i a).all P = true
  | [], _, _, h, _ => h
  | x :: xs, 0, a, h, ha => by
    simp only [List.set_cons_zero, List.all_cons, Bool.and_eq_true] at h ⊢
    exact ⟨ha, h.2⟩
  | x :: xs, i + 1, a, h, ha => by
    simp only [List.set_cons_succ, List.all_cons, Bool.and_eq_true] at h ⊢
    exact ⟨h.1, all_set P xs i a h.2 ha⟩

theorem writeEvents_allNaN (f : β → β → β) : ∀ (ps : List (List (Option β) × ℤ))
    (t t' : List (List (Option β))), t.all (fun row => row.all Option.isNone) = true →
    writeEvents (optAdd f) t ps = .ok t' → t'.all (fun row => row.all Option.isNone) = true
  | [], t, t', ht, h => by
    simp only [writeEvents] at h
    cases h
    exact ht
  | (column, event) :: rest, t, t', ht, h => by
    simp only [writeEvents] at h
    cases hi : npIndex t.length event with
    | none => rw [hi] at h; cases h
    | some i =>
      rw [hi] at h
      refine writeEvents_allNaN f rest _ t' ?_ h
      refine all_set _ t i _ ht ?_
      exact all_isNone_zipWith f (t.getD i []) column
        (all_getD (fun row => row.all Option.isNone) t i ht rfl)

theorem mapWithIdx_all (P : α → Bool) (g : ℕ → α → α)
    (hg : ∀ i x, P x = true → P (g i x) = true) : ∀ (s : ℕ) (l : List α),
    l.all P = true → (mapWithIdx g s l).all P = true
  | _, [], _ => rfl
  | s, x :: xs, h => by
    simp only [List.all_cons, Bool.and_eq_true] at h
    simp only [mapWithIdx, List.all_cons, Bool.and_eq_true]
    exact ⟨hg s x h.1, mapWithIdx_all P g hg (s + 1) xs h.2⟩

theorem writeIntervals_allNaN (f : β → β → β) : ∀ (ps : List (List (Option β) × (ℤ × ℤ)))
    (t : List (List (Option β))), t.all (fun row => row.all Option.isNone) = true →
    (writeIntervals (optAdd f) t ps).all (fun row => row.all Option.isNone) = true
  | [], _, ht => ht
  | (column, fr) :: rest, t, ht => by
    simp only [writeIntervals]
    refine writeIntervals_allNaN f rest _ ?_
    refine mapWithIdx_all _ _ ?_ 0 t ht
    intro i row hrow
    by_cases hc : sliceIdx t.length fr.1 ≤ i ∧ i < sliceIdx t.length fr.2
    · simpa [hc] using all_isNone_zipWith f row column hrow
    · simpa [hc] using hrow

theorem replicate_fill_allNaN (n m : ℕ) (z : Option β) (hz : z.isNone = true) :
    (List.replicate n (List.replicate m z)).all (fun row => row.all Option.isNone) = true := by
  refine List.all_eq_true.2 ?_
  intro row hrow
  rw [List.eq_of_mem_replicate hrow]
  refine List.all_eq_true.2 ?_
  intro x hx
  rw [List.eq_of_mem_replicate hx]
  exact hz

theorem encode_events_nil (α : Type) (D : DtypeModel α) (p : TaskParams) (duration : ℚ)
    (m : ℕ) (hd : ¬ time_to_frames p duration < 0) :
    encode_events p D duration [] [] m
      = .ok (List.replicate (time_to_frames p duration).toNat (List.replicate m D.fill)) := by
  simp [encode_events, writeEvents, hd]

theorem encode_intervals_nil (α : Type) (D : DtypeModel α) (p : TaskParams) (duration : ℚ)
    (m : ℕ) (hd : ¬ time_to_frames p duration < 0) :
    encode_intervals p D duration [] [] m
      = .ok (List.replicate (time_to_frames p duration).toNat (List.replicate m D.fill)) := by
  simp [encode_intervals, writeIntervals, hd]

/-- C6: for every duration (any one with a non-negative frame count, which is
every real track duration) and every dtype, `encode_events` with an empty
events array and `encode_intervals` with an empty intervals array return an
`[n_frames, m]` array every entry of which is the dtype's fill value. -/
theorem C6_encode_empty_all_fill : ∀ (α : Type) (D : DtypeModel α) (p : TaskParams)
    (duration : ℚ) (m : ℕ), ¬ time_to_frames p duration < 0 →
    encode_events p D duration [] [] m
      = .ok (List.replicate (time_to_frames p duration).toNat (List.replicate m D.fill))
    ∧ encode_intervals p D duration [] [] m
      = .ok (List.replicate (time_to_frames p duration).toNat (List.replicate m D.fill)) :=
  fun α D p duration m hd =>
    ⟨encode_events_nil α D p duration m hd, encode_intervals_nil α D p duration m hd⟩

/-- C6 witness: the int dtype at `sr=1000, hop_length=100, duration=1, m=2`:
10 frames of `[0, 0]`. -/
theorem C6_witness :
    (¬ time_to_frames ⟨1000, 100⟩ 1 < 0)
    ∧ encode_events ⟨1000, 100⟩ intDtype 1 [] [] 2
        = .ok (List.replicate 10 (List.replicate 2 (0 : ℤ)))
    ∧ encode_intervals ⟨1000, 100⟩ intDtype 1 [] [] 2
        = .ok (List.replicate 10 (List.replicate 2 (0 : ℤ))) := by
  have h := C6_encode_empty_all_fill ℤ intDtype ⟨1000, 100⟩ 1 2 (by decide)
  exact ⟨by decide, h.1, h.2⟩

/-- C2 counterexample: `encode_events` at `sr=1000, hop_length=100` over a
1-second track (10 frames) with a single event at `t=2.0` (frame 20, at or
beyond `n_frames`) raises `IndexError` instead of silently dropping the
event, refuting the claim that such a call "does not raise an error". -/
theorem C2_claim_counterexample :
    encode_events ⟨1000, 100⟩ intDtype 1 [2] [[1]] 1 = .error "IndexError" := rfl

/-- C2 amended: for `encode_intervals` an out-of-range interval boundary is
silently clipped — the call succeeds and the result has exactly `n_frames`
rows; `encode_events` also always returns exactly `n_frames` rows when it
succeeds, but an event whose frame index falls outside numpy's valid index
range `[-n_frames, n_frames)` makes it raise `IndexError` instead of being
dropped. -/
theorem C2_amended_encode_bounds :
    (∀ (α : Type) (D : DtypeModel α) (p : TaskParams) (duration : ℚ)
      (intervals : List (ℚ × ℚ)) (values : List (List ℚ)) (m : ℕ),
      ¬ time_to_frames p duration < 0 →
      ∃ t, encode_intervals p D duration intervals values m = .ok t
        ∧ t.length = (time_to_frames p duration).toNat)
    ∧ (∀ (α : Type) (D : DtypeModel α) (p : TaskParams) (duration : ℚ)
      (events : List ℚ) (values : List (List ℚ)) (m : ℕ) (t : List (List α)),
      encode_events p D duration events values m = .ok t →
      t.length = (time_to_frames p duration).toNat)
    ∧ (∀ (α : Type) (D : DtypeModel α) (p : TaskParams) (duration : ℚ)
      (events : List ℚ) (values : List (List ℚ)) (m : ℕ),
      ¬ time_to_frames p duration < 0 →
      (∃ pr ∈ (values.map (List.map D.ofRat)).zip (events.map (time_to_frames p)),
        npIndex (time_to_frames p duration).toNat pr.2 = none) →
      encode_events p D duration events values m = .error "IndexError") := by
  refine ⟨?_, ?_, ?_⟩
  · intro α D p duration intervals values m hd
    have hok : encode_intervals p D duration intervals values m
        = .ok (writeIntervals D.add
            (List.replicate (time_to_frames p duration).toNat (List.replicate m D.fill))
            ((values.map (List.map D.ofRat)).zip
              (intervals.map fun iv => (time_to_frames p iv.1, time_to_frames p iv.2)))) := by
      simp [encode_intervals, hd]
    refine ⟨_, hok, ?_⟩
    rw [length_writeIntervals]
    simp
  · intro α D p duration events values m t h
    simp only [encode_events] at h
    by_cases hd : time_to_frames p duration < 0
    · simp [hd] at h
    · simp only [hd, if_false] at h
      rw [writeEvents_ok_length _ _ _ _ h]
      simp
  · intro α D p duration events values m hd hoob
    simp only [encode_events, hd, if_false]
    refine writeEvents_oob_error D.add _ _ ?_
    simpa using hoob

/-- C2 witness: at `sr=1000, hop_length=100, duration=1` (10 frames): an
interval reaching frame 20 is clipped and the call succeeds with 10 rows; a
successful `encode_events` call returns 10 rows; an event at frame 20 raises
`IndexError`. -/
theorem C2_witness :
    (¬ time_to_frames ⟨1000, 100⟩ 1 < 0)
    ∧ (∃ t, encode_intervals ⟨1000, 100⟩ intDtype 1 [(0, 2)] [[1]] 1 = .ok t
        ∧ t.length = 10)
    ∧ ((List.replicate 10 [(0 : ℤ)]).set 0 [5]).length = 10
    ∧ encode_events ⟨1000, 100⟩ intDtype 1 [2] [[7]] 1 = .error "IndexError" := by
  refine ⟨by decide, ?_, ?_, ?_⟩
  · exact C2_amended_encode_bounds.1 ℤ intDtype ⟨1000, 100⟩ 1 [(0, 2)] [[1]] 1 (by decide)
  · exact C2_amended_encode_bounds.2.1 ℤ intDtype ⟨1000, 100⟩ 1 [0] [[5]] 1 _ rfl
  · exact C2_amended_encode_bounds.2.2 ℤ intDtype ⟨1000, 100⟩ 1 [2] [[7]] 1 (by decide)
      ⟨([7], 20), by decide, rfl⟩

set_option maxRecDepth 100000

/-- C8: at `sr=22050, hop_length=512`, transforming one beat-only annotation
(single onset at `t=1.0s`, beat-position value `2`, hence no downbeats) over
a 5-second track gives a `beat` field that is `1` (`True`) exactly at frame
`43 = floor(1.0*22050/512)`, an all-zero `downbeat` field, `mask_downbeat =
false`, and `_valid = [0, 215]` with `215 = floor(5.0*22050/512)`. -/
theorem C8_beat_concrete_scenario :
    transform_beat ⟨22050, 512⟩ [some ⟨none, none, [⟨1, 0, 2⟩]⟩] 5 =
      .ok { beat := (List.replicate 215 [false]).set 43 [true]
            downbeat := List.replicate 215 [false]
            mask_downbeat := false
            valid := (0, 215) } := rfl

/-- C9: for every audio input (represented by the matrices the external DSP
computation returns), `STFTMag.transform_audio` yields a mapping with only
the `mag` key; `STFTPhaseDiff.transform_audio` yields `mag` — exactly the
parent STFT's `mag` entry — plus a `dphase` entry replacing `phase`; and the
`STFTPhaseDiff` schema registers `dphase` with exactly the shape and dtype of
the popped `phase` field, while `STFTMag`'s schema retains only `mag`. -/
theorem C9_stft_variants :
    ∀ (pd : Mat → Mat) (mag phase : Mat) (n_fft : ℕ),
    stftMag_transform_audio mag phase = .ok [("mag", mag)]
    ∧ stftPhaseDiff_transform_audio pd mag phase
        = .ok [("mag", mag), ("dphase", pd phase)]
    ∧ stftPhaseDiff_fields n_fft
        = some [("mag", { shape := [none, some (1 + n_fft / 2)], dtype := .float32 }),
                ("dphase", { shape := [none, some (1 + n_fft / 2)], dtype := .float32 })]
    ∧ stftMag_fields n_fft
        = some [("mag", { shape := [none, some (1 + n_fft / 2)], dtype := .float32 })] :=
  fun pd mag phase n_fft => ⟨rfl, rfl, rfl, rfl⟩

/-- C3: `fill_value` is NaN (modelled `none`) exactly for the floating and
complex dtypes and zero (`False` for booleans) otherwise, and both encoders
leave every unobserved frame — one targeted by no event index and no clipped
interval slice — equal to a row of that fill value. -/
theorem C3_fill_value_unobserved :
    (boolDtype.fill = false ∧ intDtype.fill = (0 : ℤ)
      ∧ floatDtype.fill = (none : Option ℚ)
      ∧ complexDtype.fill = (none : Option (ℚ × ℚ)))
    ∧ (∀ (α : Type) (D : DtypeModel α) (p : TaskParams) (duration : ℚ)
        (events : List ℚ) (values : List (List ℚ)) (m : ℕ) (t : List (List α)) (j : ℕ),
        encode_events p D duration events values m = .ok t →
        (∀ e ∈ events,
          npIndex (time_to_frames p duration).toNat (time_to_frames p e) ≠ some j) →
        j < (time_to_frames p duration).toNat →
        t[j]? = some (List.replicate m D.fill))
    ∧ (∀ (α : Type) (D : DtypeModel α) (p : TaskParams) (duration : ℚ)
        (intervals : List (ℚ × ℚ)) (values : List (List ℚ)) (m : ℕ)
        (t : List (List α)) (j : ℕ),
        encode_intervals p D duration intervals values m = .ok t →
        (∀ iv ∈ intervals,
          ¬(sliceIdx (time_to_frames p duration).toNat (time_to_frames p iv.1) ≤ j
            ∧ j < sliceIdx (time_to_frames p duration).toNat (time_to_frames p iv.2))) →
        j < (time_to_frames p duration).toNat →
        t[j]? = some (List.replicate m D.fill)) := by
  refine ⟨⟨rfl, rfl, rfl, rfl⟩, ?_, ?_⟩
  · intro α D p duration events values m t j h hev hj
    simp only [encode_events] at h
    by_cases hd : time_to_frames p duration < 0
    · simp [hd] at h
    · simp only [hd, if_false] at h
      have hcond : ∀ pr ∈ (values.map (List.map D.ofRat)).zip
          (events.map (time_to_frames p)),
          npIndex (List.replicate (time_to_frames p duration).toNat
            (List.replicate m D.fill)).length pr.2 ≠ some j := by
        intro pr hpr
        obtain ⟨c, fr⟩ := pr
        have hmem := (List.of_mem_zip hpr).2
        obtain ⟨e, he, hfe⟩ := List.mem_map.1 hmem
        rw [List.length_replicate, ← hfe]
        exact hev e he
      rw [writeEvents_unobserved D.add _ _ t j h hcond]
      simp [List.getElem?_replicate, hj]
  · intro α D p duration intervals values m t j h hiv hj
    simp only [encode_intervals] at h
    by_cases hd : time_to_frames p duration < 0
    · simp [hd] at h
    · simp only [hd, if_false] at h
      injection h with h'
      subst h'
      have hcond : ∀ pr ∈ (values.map (List.map D.ofRat)).zip
          (intervals.map fun iv => (time_to_frames p iv.1, time_to_frames p iv.2)),
          ¬(sliceIdx (List.replicate (time_to_frames p duration).toNat
              (List.replicate m D.fill)).length pr.2.1 ≤ j
            ∧ j < sliceIdx (List.replicate (time_to_frames p duration).toNat
              (List.replicate m D.fill)).length pr.2.2) := by
        intro pr hpr
        obtain ⟨c, fr⟩ := pr
        have hmem := (List.of_mem_zip hpr).2
        obtain ⟨iv, hivm, hfiv⟩ := List.mem_map.1 hmem
        rw [List.length_replicate, ← hfiv]
        exact hiv iv hivm
      rw [writeIntervals_unobserved D.add _ _ j hcond]
      simp [List.getElem?_replicate, hj]

/-- C3 witness: the int dtype at `sr=1000, hop_length=100, duration=1` with
one event at `t=0.5` (frame 5): frame 7 is unobserved and reads the fill
row `[0]`; same for an interval `[0.5, 0.7)` (frames 5 and 6). -/
theorem C3_witness :
    (∀ e ∈ [mkRat 1 2],
      npIndex (time_to_frames ⟨1000, 100⟩ 1).toNat (time_to_frames ⟨1000, 100⟩ e) ≠ some 7)
    ∧ (7 < (time_to_frames ⟨1000, 100⟩ 1).toNat)
    ∧ ((List.replicate 10 [(0 : ℤ)]).set 5 [3])[7]? = some [(0 : ℤ)]
    ∧ (writeIntervals intDtype.add (List.replicate 10 [(0 : ℤ)])
        [([3], (5, 7))])[7]? = some [(0 : ℤ)] := by
  refine ⟨by decide, by decide, ?_, ?_⟩
  · have h := C3_fill_value_unobserved.2.1 ℤ intDtype ⟨1000, 100⟩ 1 [mkRat 1 2] [[3]] 1
      ((List.replicate 10 [(0 : ℤ)]).set 5 [3]) 7 rfl (by decide) (by decide)
    simpa using h
  · have h := C3_fill_value_unobserved.2.2 ℤ intDtype ⟨1000, 100⟩ 1
      [(mkRat 1 2, mkRat 7 10)] [[3]] 1
      (writeIntervals intDtype.add (List.replicate 10 [(0 : ℤ)]) [([3], (5, 7))]) 7
      rfl (by decide) (by decide)
    simpa using h

theorem encode_events_allNaN (f : β → β → β) (g : ℚ → Option β) (p : TaskParams)
    (duration : ℚ) (events : List ℚ) (values : List (List ℚ)) (m : ℕ)
    (t : List (List (Option β)))
    (h : encode_events p ⟨none, optAdd f, g⟩ duration events values m = .ok t) :
    allNaN t = true := by
  simp only [encode_events] at h
  by_cases hd : time_to_frames p duration < 0
  · simp [hd] at h
  · simp only [hd, if_false] at h
    exact writeEvents_allNaN f _ _ t (replicate_fill_allNaN _ m none rfl) h

theorem encode_intervals_allNaN (f : β → β → β) (g : ℚ → Option β) (p : TaskParams)
    (duration : ℚ) (intervals : List (ℚ × ℚ)) (values : List (List ℚ)) (m : ℕ)
    (t : List (List (Option β)))
    (h : encode_intervals p ⟨none, optAdd f, g⟩ duration intervals values m = .ok t) :
    allNaN t = true := by
  simp only [encode_intervals] at h
  by_cases hd : time_to_frames p duration < 0
  · simp [hd] at h
  · simp only [hd, if_false] at h
    injection h with h'
    subst h'
    exact writeIntervals_allNaN f _ _ (replicate_fill_allNaN _ m none rfl)

/-- C4: for the floating and complex dtypes every successful result of
`encode_events` or `encode_intervals` is entirely NaN, whatever events or
intervals were supplied: every frame starts as the NaN fill and `+=` onto NaN
stays NaN, so observed frames read NaN just like unobserved ones. -/
theorem C4_float_complex_all_nan :
    (∀ (p : TaskParams) (duration : ℚ) (events : List ℚ) (values : List (List ℚ))
      (m : ℕ) (t : List (List (Option ℚ))),
      encode_events p floatDtype duration events values m = .ok t → allNaN t = true)
    ∧ (∀ (p : TaskParams) (duration : ℚ) (intervals : List (ℚ × ℚ))
      (values : List (List ℚ)) (m : ℕ) (t : List (List (Option ℚ))),
      encode_intervals p floatDtype duration intervals values m = .ok t → allNaN t = true)
    ∧ (∀ (p : TaskParams) (duration : ℚ) (events : List ℚ) (values : List (List ℚ))
      (m : ℕ) (t : List (List (Option (ℚ × ℚ)))),
      encode_events p complexDtype duration events values m = .ok t → allNaN t = true)
    ∧ (∀ (p : TaskParams) (duration : ℚ) (intervals : List (ℚ × ℚ))
      (values : List (List ℚ)) (m : ℕ) (t : List (List (Option (ℚ × ℚ)))),
      encode_intervals p complexDtype duration intervals values m = .ok t →
      allNaN t = true) :=
  ⟨fun p duration events values m t h =>
      encode_events_allNaN (fun a b => a + b) some p duration events values m t h,
    fun p duration intervals values m t h =>
      encode_intervals_allNaN (fun a b => a + b) some p duration intervals values m t h,
    fun p duration events values m t h =>
      encode_events_allNaN (fun a b => (a.1 + b.1, a.2 + b.2)) (fun q => some (q, 0))
        p duration events values m t h,
    fun p duration intervals values m t h =>
      encode_intervals_allNaN (fun a b => (a.1 + b.1, a.2 + b.2)) (fun q => some (q, 0))
        p duration intervals values m t h⟩

/-- C4 witness: one float event at `t=0.5` with value `3` over 10 frames
still yields 10 all-NaN rows; same for one interval. -/
theorem C4_witness :
    encode_events ⟨1000, 100⟩ floatDtype 1 [mkRat 1 2] [[3]] 1
      = .ok ((List.replicate 10 [(none : Option ℚ)]).set 5
          (List.zipWith floatDtype.add [none] [some 3]))
    ∧ allNaN ((List.replicate 10 [(none : Option ℚ)]).set 5
        (List.zipWith floatDtype.add [none] [some 3])) = true := by
  refine ⟨rfl, ?_⟩
  exact C4_float_complex_all_nan.1 ⟨1000, 100⟩ 1 [mkRat 1 2] [[3]] 1 _ rfl

theorem transform_beat_no_candidates (p : TaskParams) (cands : List (Option BeatAnn))
    (duration : ℚ) (hc : cands.filterMap id = [])
    (hd : ¬ time_to_frames p duration < 0) :
    transform_beat p cands duration
      = .ok { beat := List.replicate (time_to_frames p duration).toNat [false]
              downbeat := List.replicate (time_to_frames p duration).toNat [false]
              mask_downbeat := false
              valid := (0, 0) } := by
  have henc := encode_events_nil Bool boolDtype p duration 1 hd
  rw [show boolDtype.fill = false from rfl, List.replicate_one] at henc
  have hval : validFrames p { time := some 0, duration := some 0, data := [] } duration
      = (0, 0) := by
    simp [validFrames, time_to_frames_zero]
  simp [transform_beat, hc, mapResults, transform_annotation_beat, beat_empty,
    henc, hval, merge_beat]

/-- C5 counterexample: at `sr=22050, hop_length=512` with a 5-second track
and no convertible annotation, `transform` returns `_valid = [0, 0]` — the
synthesized empty annotation is built with `time=0, duration=0`, so the
`_valid` window does not span the full track, whose end frame is
`time_to_frames(5.0) = 215 ≠ 0`. -/
theorem C5_claim_counterexample :
    transform_beat ⟨22050, 512⟩ [none] 5
      = .ok { beat := List.replicate 215 [false]
              downbeat := List.replicate 215 [false]
              mask_downbeat := false
              valid := (0, 0) }
    ∧ time_to_frames ⟨22050, 512⟩ 5 ≠ 0 := by
  constructor
  · exact transform_beat_no_candidates ⟨22050, 512⟩ [none] 5 rfl (by decide)
  · decide

/-- C5 amended: when zero annotations are convertible, `transform` still
returns a full record whose label fields are entirely fill-valued and whose
`mask_downbeat` is false, but its `_valid` is `[0, 0]` — not the full track —
because `empty` ignores its duration argument and builds an annotation with
`time=0, duration=0`. -/
theorem C5_amended_empty_fallback :
    ∀ (p : TaskParams) (cands : List (Option BeatAnn)) (duration : ℚ),
    cands.filterMap id = [] → ¬ time_to_frames p duration < 0 →
    transform_beat p cands duration
      = .ok { beat := List.replicate (time_to_frames p duration).toNat [false]
              downbeat := List.replicate (time_to_frames p duration).toNat [false]
              mask_downbeat := false
              valid := (0, 0) } :=
  transform_beat_no_candidates

/-- C5 witness: two failing candidates over a 4-second track at
`sr=1000, hop_length=100`: 40 all-fill frames and `_valid = [0, 0]`. -/
theorem C5_witness :
    ([none, none] : List (Option BeatAnn)).filterMap id = []
    ∧ (¬ time_to_frames ⟨1000, 100⟩ 4 < 0)
    ∧ transform_beat ⟨1000, 100⟩ [none, none] 4
        = .ok { beat := List.replicate 40 [false]
                downbeat := List.replicate 40 [false]
                mask_downbeat := false
                valid := (0, 0) } := by
  refine ⟨rfl, by decide, ?_⟩
  exact C5_amended_empty_fallback ⟨1000, 100⟩ [none, none] 4 rfl (by decide)

/-- C7: a candidate annotation whose namespace conversion fails (raises
`jams.NamespaceError`, modelled as `none`) is silently excluded: removing it
from the candidate list leaves `transform`'s result — success or failure —
unchanged, wherever it occurs, so the failure never surfaces to the caller. -/
theorem C7_conversion_failure_excluded :
    ∀ (p : TaskParams) (duration : ℚ) (pre post : List (Option BeatAnn)),
    transform_beat p (pre ++ none :: post) duration
      = transform_beat p (pre ++ post) duration := by
  intro p duration pre post
  have hfm : (pre ++ none :: post).filterMap id = (pre ++ post).filterMap id := by
    simp
  simp only [transform_beat, hfm]

theorem transform_annotation_beat_inv (p : TaskParams) (data : List Observation)
    (duration : ℚ) (r : BeatRecord)
    (h : transform_annotation_beat p data duration = .ok r) :
    encode_events p boolDtype duration (data.map (·.time))
        ((data.map (·.time)).map fun _ => [1]) 1 = .ok r.beat
    ∧ encode_events p boolDtype duration
        (if (data.map (·.value)).any (fun v => decide (v = 1))
          then (data.filter fun o => decide (o.value = 1)).map (·.time) else [])
        ((if (data.map (·.value)).any (fun v => decide (v = 1))
          then (data.filter fun o => decide (o.value = 1)).map (·.time) else []).map
            fun _ => [1]) 1 = .ok r.downbeat
    ∧ r.mask_downbeat = (data.map (·.value)).any fun v => decide (v = 1) := by
  simp only [transform_annotation_beat] at h
  split at h
  next e heq1 => cases h
  next tb heq1 =>
    split at h
    next e heq2 => cases h
    next td heq2 =>
      injection h with h'
      subst h'
      exact ⟨heq1, heq2, rfl⟩

theorem any_map_fun (f : α → γ) (p : γ → Bool) : ∀ l : List α,
    (l.map f).any p = l.any fun a => p (f a)
  | [] => rfl
  | x :: xs => by
    simp only [List.map_cons, List.any_cons, any_map_fun f p xs]

/-- C10: `transform_annotation` treats every onset as a beat event regardless
of its value (the beat field depends only on the onset times), classifies an
onset as a downbeat exactly when its value equals 1 (the downbeat field
equals the beat field of the annotation restricted to value-1 observations),
and sets `mask_downbeat` to true exactly when some value equals 1 — in
particular with no value equal to 1 the downbeat field is all-fill and the
mask is false. -/
theorem C10_beat_classification :
    (∀ (p : TaskParams) (duration : ℚ) (data : List Observation) (r : BeatRecord),
      transform_annotation_beat p data duration = .ok r →
      r.mask_downbeat = data.any fun o => decide (o.value = 1))
    ∧ (∀ (p : TaskParams) (duration : ℚ) (data data' : List Observation)
      (r r' : BeatRecord),
      data.map (·.time) = data'.map (·.time) →
      transform_annotation_beat p data duration = .ok r →
      transform_annotation_beat p data' duration = .ok r' →
      r.beat = r'.beat)
    ∧ (∀ (p : TaskParams) (duration : ℚ) (data : List Observation) (r r' : BeatRecord),
      transform_annotation_beat p data duration = .ok r →
      transform_annotation_beat p (data.filter fun o => decide (o.value = 1)) duration
        = .ok r' →
      r.downbeat = r'.beat)
    ∧ (∀ (p : TaskParams) (duration : ℚ) (data : List Observation) (r : BeatRecord),
      transform_annotation_beat p data duration = .ok r →
      (∀ o ∈ data, o.value ≠ 1) →
      r.mask_downbeat = false
      ∧ r.downbeat = List.replicate (time_to_frames p duration).toNat [false]) := by
  refine ⟨?_, ?_, ?_, ?_⟩
  · intro p duration data r h
    have inv := transform_annotation_beat_inv p data duration r h
    rw [inv.2.2, any_map_fun]
  · intro p duration data data' r r' htimes h h'
    have i1 := (transform_annotation_beat_inv p data duration r h).1
    have i2 := (transform_annotation_beat_inv p data' duration r' h').1
    rw [htimes] at i1
    rw [i1] at i2
    injection i2
  · intro p duration data r r' h h'
    by_cases hA : ((data.map fun x => x.value).any fun v => decide (v = 1)) = true
    · have h2 := (transform_annotation_beat_inv p data duration r h).2.1
      rw [if_pos hA] at h2
      have h1' := (transform_annotation_beat_inv p _ duration r' h').1
      rw [h2] at h1'
      injection h1'
    · have h2 := (transform_annotation_beat_inv p data duration r h).2.1
      rw [if_neg hA] at h2
      simp only [List.map_nil] at h2
      have hfil : data.filter (fun o => decide (o.value = 1)) = [] := by
        rw [List.filter_eq_nil_iff]
        intro a ha hdec
        exact hA (List.any_eq_true.2 ⟨a.value, List.mem_map_of_mem _ ha, hdec⟩)
      rw [hfil] at h'
      have h1' := (transform_annotation_beat_inv p [] duration r' h').1
      simp only [List.map_nil] at h1'
      rw [h2] at h1'
      injection h1'
  · intro p duration data r h hno
    have inv := transform_annotation_beat_inv p data duration r h
    have hA : ((data.map fun x => x.value).any fun v => decide (v = 1)) = false := by
      rw [List.any_eq_false]
      intro v hv
      obtain ⟨o, ho, rfl⟩ := List.mem_map.1 hv
      simpa using hno o ho
    constructor
    · rw [inv.2.2, hA]
    · have h2 := inv.2.1
      rw [hA] at h2
      simp only [Bool.false_eq_true, if_false, List.map_nil] at h2
      by_cases hd : time_to_frames p duration < 0
      · exfalso
        simp [encode_events, hd] at h2
      · have hnil := encode_events_nil Bool boolDtype p duration 1 hd
        rw [show boolDtype.fill = false from rfl, List.replicate_one] at hnil
        rw [hnil] at h2
        injection h2 with h''
        exact h''.symm

/-- C10 witness: at `sr=1000, hop_length=100, duration=2`, the annotation
with onsets `0.5` (value 2) and `1.0` (value 1): the mask reflects the
value-1 observation, the beat field matches the same onsets with different
values, the downbeat field equals the beat field of the value-1 restriction,
and the all-non-1 variant has a false mask and all-fill downbeat field. -/
theorem C10_witness :
    ({ beat := ((List.replicate 20 [false]).set 5 [true]).set 10 [true]
       downbeat := (List.replicate 20 [false]).set 10 [true]
       mask_downbeat := true } : BeatRecord).mask_downbeat
      = ([⟨mkRat 1 2, 0, 2⟩, ⟨1, 0, 1⟩] : List Observation).any (fun o => decide (o.value = 1))
    ∧ ({ beat := ((List.replicate 20 [false]).set 5 [true]).set 10 [true]
         downbeat := (List.replicate 20 [false]).set 10 [true]
         mask_downbeat := true } : BeatRecord).beat
      = ({ beat := ((List.replicate 20 [false]).set 5 [true]).set 10 [true]
           downbeat := List.replicate 20 [false]
           mask_downbeat := false } : BeatRecord).beat
    ∧ ({ beat := ((List.replicate 20 [false]).set 5 [true]).set 10 [true]
         downbeat := (List.replicate 20 [false]).set 10 [true]
         mask_downbeat := true } : BeatRecord).downbeat
      = ({ beat := (List.replicate 20 [false]).set 10 [true]
           downbeat := (List.replicate 20 [false]).set 10 [true]
           mask_downbeat := true } : BeatRecord).beat
    ∧ (({ beat := ((List.replicate 20 [false]).set 5 [true]).set 10 [true]
          downbeat := List.replicate 20 [false]
          mask_downbeat := false } : BeatRecord).mask_downbeat = false
      ∧ ({ beat := ((List.replicate 20 [false]).set 5 [true]).set 10 [true]
           downbeat := List.replicate 20 [false]
           mask_downbeat := false } : BeatRecord).downbeat
        = List.replicate (time_to_frames ⟨1000, 100⟩ 2).toNat [false]) := by
  refine ⟨?_, ?_, ?_, ?_⟩
  · exact C10_beat_classification.1 ⟨1000, 100⟩ 2 [⟨mkRat 1 2, 0, 2⟩, ⟨1, 0, 1⟩] _ rfl
  · exact C10_beat_classification.2.1 ⟨1000, 100⟩ 2
      [⟨mkRat 1 2, 0, 2⟩, ⟨1, 0, 1⟩] [⟨mkRat 1 2, 0, 7⟩, ⟨1, 0, 3⟩] _ _ rfl rfl rfl
  · exact C10_beat_classification.2.2.1 ⟨1000, 100⟩ 2
      [⟨mkRat 1 2, 0, 2⟩, ⟨1, 0, 1⟩] _ _ rfl rfl
  · exact C10_beat_classification.2.2.2 ⟨1000, 100⟩ 2
      [⟨mkRat 1 2, 0, 7⟩, ⟨1, 0, 3⟩] _ rfl (by decide)

theorem zipWith_add_replicate_zero_left : ∀ (l : List ℤ),
    List.zipWith (fun a b : ℤ => a + b) (List.replicate l.length 0) l = l
  | [] => rfl
  | x :: xs => by
    simp only [List.length_cons, List.replicate_succ, List.zipWith_cons_cons, zero_add,
      zipWith_add_replicate_zero_left xs]

theorem zipWith_add_replicate_zero_right : ∀ (l : List ℤ),
    List.zipWith (fun a b : ℤ => a + b) l (List.replicate l.length 0) = l
  | [] => rfl
  | x :: xs => by
    simp only [List.length_cons, List.replicate_succ, List.zipWith_cons_cons, add_zero,
      zipWith_add_replicate_zero_right xs]

theorem two_slices_mapWithIdx (c1 c2 : List ℤ) (m lo1 hi1 lo2 hi2 : ℕ)
    (h1 : c1.length = m) (h2 : c2.length = m) : ∀ (n s : ℕ),
    mapWithIdx (fun j row => if lo2 ≤ j ∧ j < hi2
        then List.zipWith (fun a b : ℤ => a + b) row c2 else row) s
      (mapWithIdx (fun j row => if lo1 ≤ j ∧ j < hi1
        then List.zipWith (fun a b : ℤ => a + b) row c1 else row) s
        (List.replicate n (List.replicate m 0)))
      = List.zipWith (List.zipWith fun a b : ℤ => a + b)
          (mapWithIdx (fun j row => if lo1 ≤ j ∧ j < hi1
            then List.zipWith (fun a b : ℤ => a + b) row c1 else row) s
            (List.replicate n (List.replicate m 0)))
          (mapWithIdx (fun j row => if lo2 ≤ j ∧ j < hi2
            then List.zipWith (fun a b : ℤ => a + b) row c2 else row) s
            (List.replicate n (List.replicate m 0)))
  | 0, s => rfl
  | n + 1, s => by
    have hz1 : List.zipWith (fun a b : ℤ => a + b) (List.replicate m 0) c1 = c1 := by
      rw [← h1]
      exact zipWith_add_replicate_zero_left c1
    have hz2 : List.zipWith (fun a b : ℤ => a + b) (List.replicate m 0) c2 = c2 := by
      rw [← h2]
      exact zipWith_add_replicate_zero_left c2
    have hzr1 : List.zipWith (fun a b : ℤ => a + b) c1 (List.replicate m 0) = c1 := by
      rw [← h1]
      exact zipWith_add_replicate_zero_right c1
    have hIH := two_slices_mapWithIdx c1 c2 m lo1 hi1 lo2 hi2 h1 h2 n (s + 1)
    simp only [List.replicate_succ, mapWithIdx, List.zipWith_cons_cons, hIH]
    by_cases hc1 : lo1 ≤ s ∧ s < hi1
    · by_cases hc2 : lo2 ≤ s ∧ s < hi2
      · simp [hc1, hc2, hz1, hz2]
      · simp [hc1, hc2, hz1, hzr1]
    · by_cases hc2 : lo2 ≤ s ∧ s < hi2
      · simp [hc1, hc2, hz2]
      · simp [hc1, hc2, List.zipWith_replicate]

theorem addInterval_pair_add (c1 c2 : List ℤ) (m lo1 hi1 lo2 hi2 n : ℕ)
    (h1 : c1.length = m) (h2 : c2.length = m) :
    addInterval (fun a b => a + b) lo2 hi2 c2
        (addInterval (fun a b => a + b) lo1 hi1 c1
          (List.replicate n (List.replicate m 0)))
      = List.zipWith (List.zipWith fun a b : ℤ => a + b)
          (addInterval (fun a b => a + b) lo1 hi1 c1
            (List.replicate n (List.replicate m 0)))
          (addInterval (fun a b => a + b) lo2 hi2 c2
            (List.replicate n (List.replicate m 0))) :=
  two_slices_mapWithIdx c1 c2 m lo1 hi1 lo2 hi2 h1 h2 n 0

/-- C1: `encode_intervals` is additive — for the integer dtype, encoding two
intervals together equals the element-wise sum of encoding each
independently (for non-overlapping intervals this sum is also their union,
each frame receiving the contribution of the at most one interval covering
it, since the fill is zero) — and in the concrete scenario `sr=1000,
hop_length=100` with intervals `[0.0,1.0)` and `[0.5,1.5)` of value 1 over a
2-second track, frames 5-9 hold 2, frames 0-4 and 10-14 hold 1, and frames
15-19 hold the fill value 0. -/
theorem C1_encode_intervals_additive :
    (∀ (p : TaskParams) (duration : ℚ) (a1 b1 a2 b2 : ℚ) (v1 v2 : List ℚ) (m : ℕ)
      (t1 t2 : List (List ℤ)),
      v1.length = m → v2.length = m →
      encode_intervals p intDtype duration [(a1, b1)] [v1] m = .ok t1 →
      encode_intervals p intDtype duration [(a2, b2)] [v2] m = .ok t2 →
      encode_intervals p intDtype duration [(a1, b1), (a2, b2)] [v1, v2] m
        = .ok (List.zipWith (List.zipWith fun a b => a + b) t1 t2))
    ∧ encode_intervals ⟨1000, 100⟩ intDtype 2 [(0, 1), (mkRat 1 2, mkRat 3 2)]
        [[1], [1]] 1
      = .ok [[1], [1], [1], [1], [1], [2], [2], [2], [2], [2],
             [1], [1], [1], [1], [1], [0], [0], [0], [0], [0]] := by
  constructor
  · intro p duration a1 b1 a2 b2 v1 v2 m t1 t2 hv1 hv2 h1 h2
    by_cases hd : time_to_frames p duration < 0
    · simp [encode_intervals, hd] at h1
    · simp only [encode_intervals, hd, if_false, intDtype, List.map_cons, List.map_nil,
        List.zip_cons_cons, List.zip_nil_right] at h1 h2 ⊢
      injection h1 with ht1
      injection h2 with ht2
      subst ht1
      subst ht2
      simp only [writeIntervals]
      have hw1 : (v1.map ratTrunc).length = m := by simp [hv1]
      have hw2 : (v2.map ratTrunc).length = m := by simp [hv2]
      simp only [writeIntervals, addInterval, length_mapWithIdx, List.length_replicate]
      exact congrArg Except.ok
        (two_slices_mapWithIdx (v1.map ratTrunc) (v2.map ratTrunc) m _ _ _ _ hw1 hw2
          (time_to_frames p duration).toNat 0)
  · rfl

/-- C1 witness: the general additivity applied to the two concrete intervals
of the scenario. -/
theorem C1_witness :
    ([(1 : ℚ)].length = 1)
    ∧ (¬ time_to_frames ⟨1000, 100⟩ 2 < 0)
    ∧ encode_intervals ⟨1000, 100⟩ intDtype 2 [(0, 1)] [[1]] 1
        = .ok [[1], [1], [1], [1], [1], [1], [1], [1], [1], [1],
               [0], [0], [0], [0], [0], [0], [0], [0], [0], [0]]
    ∧ encode_intervals ⟨1000, 100⟩ intDtype 2 [(0, 1), (mkRat 1 2, mkRat 3 2)] [[1], [1]] 1
        = .ok (List.zipWith (List.zipWith fun a b => a + b)
            [[1], [1], [1], [1], [1], [1], [1], [1], [1], [1],
             [0], [0], [0], [0], [0], [0], [0], [0], [0], [0]]
            [[0], [0], [0], [0], [0], [1], [1], [1], [1], [1],
             [1], [1], [1], [1], [1], [0], [0], [0], [0], [0]]) := by
  refine ⟨rfl, by decide, rfl, ?_⟩
  exact C1_encode_intervals_additive.1 ⟨1000, 100⟩ 2 0 1 (mkRat 1 2) (mkRat 3 2)
    [1] [1] 1 _ _ rfl rfl rfl rfl
